import Mathlib

/-!
Shallow embedding of the product-price query service in `src/app.py`
(functions `normalize_dimension`, `validate_dimension`, `fetch_product_info`
and the `GET /webhook` verification handler), together with proofs of the
specification claims about them.

Modelling conventions:
* Python strings are Lean `String`s; character-level operations are written
  as structural recursions over `List Char` so that every definition is
  kernel-executable on concrete inputs.
* Python `None` is `Option.none`; a Python value that can be `None` or a
  string is an `Option String`.  Python truthiness of a string (`if s:`)
  is `s ≠ ""`.
* `int(s)` (base 10) is `pyIntL`: surrounding whitespace stripped, optional
  sign, ASCII digits with single underscores allowed between digits.
* `str(i)` / f-string interpolation of an int is `intStr`.
* pandas `Series.str.contains(pat, case=False)` is modelled as
  case-insensitive literal substring containment (`strContainsCI`); the
  catalog names involved contain no regex metacharacters.
* ASCII approximation: Python's unicode-aware `str.lower`, `str.strip`,
  `\d` and `int` digit classes are modelled over ASCII characters.
-/

/-- Lower-case an ASCII letter, modelling Python `str.lower` per character. -/
def lowerChar (c : Char) : Char :=
  if 65 ≤ c.toNat && c.toNat ≤ 90 then Char.ofNat (c.toNat + 32) else c

/-- Lower-case a character list. -/
def lowerL (cs : List Char) : List Char := cs.map lowerChar

/-- Python `str.strip()` on a character list (ASCII whitespace). -/
def pyStrip (cs : List Char) : List Char :=
  ((cs.dropWhile Char.isWhitespace).reverse.dropWhile Char.isWhitespace).reverse

/-- Python `str.strip()` on a string. -/
def pyStripS (s : String) : String := ⟨pyStrip s.data⟩

/-- Is `needle` a prefix of `hay`? (structural, kernel-executable) -/
def isPrefixL : List Char → List Char → Bool
  | [], _ => true
  | _ :: _, [] => false
  | a :: as, b :: bs => a == b && isPrefixL as bs

/-- Is `needle` a contiguous substring of `hay`? -/
def containsSub (needle : List Char) : List Char → Bool
  | [] => needle.isEmpty
  | b :: bs => isPrefixL needle (b :: bs) || containsSub needle bs

/-- Case-insensitive substring containment: model of
pandas `hay.str.contains(pat, case=False)` for a literal pattern. -/
def strContainsCI (hay pat : String) : Bool :=
  containsSub (lowerL pat.data) (lowerL hay.data)

/-- Python `s.split(c)` for a single separator character: split at every
occurrence, keeping empty pieces. -/
def splitOnChar (c : Char) : List Char → List (List Char)
  | [] => [[]]
  | a :: rest =>
    if a = c then [] :: splitOnChar c rest
    else
      match splitOnChar c rest with
      | h :: t => (a :: h) :: t
      | [] => [[a]]

/-- Helper for `pyTokens`: accumulate the current word (reversed). -/
def pyTokensAcc : List Char → List Char → List (List Char)
  | [], acc => if acc.isEmpty then [] else [acc.reverse]
  | c :: rest, acc =>
    if c.isWhitespace then
      if acc.isEmpty then pyTokensAcc rest []
      else acc.reverse :: pyTokensAcc rest []
    else pyTokensAcc rest (c :: acc)

/-- Python `s.split()` with no argument: whitespace-delimited tokens,
empty pieces discarded. -/
def pyTokens (cs : List Char) : List (List Char) := pyTokensAcc cs []

/-- Digit accumulation step used by the base-10 parser. -/
def digStep (acc : Nat) (c : Char) : Nat := acc * 10 + (c.toNat - 48)

/-- Parse the remaining characters of a Python base-10 integer literal after
the first digit: digits, with single underscores allowed between digits. -/
def parseDigsAux (acc : Nat) : List Char → Option Nat
  | [] => some acc
  | c :: rest =>
    if c.isDigit then parseDigsAux (digStep acc c) rest
    else if c = '_' then
      match rest with
      | c2 :: rest2 => if c2.isDigit then parseDigsAux (digStep acc c2) rest2 else none
      | [] => none
    else none

/-- Parse a nonempty unsigned base-10 literal (first char must be a digit). -/
def parseNatL : List Char → Option Nat
  | [] => none
  | c :: rest => if c.isDigit then parseDigsAux (c.toNat - 48) rest else none

/-- Model of Python `int(s)` (base 10) on a character list: strip
whitespace, optional sign, digits with single interior underscores. -/
def pyIntL (cs : List Char) : Option Int :=
  match pyStrip cs with
  | [] => none
  | c :: rest =>
    if c = '-' then (parseNatL rest).map (fun n => -(n : Int))
    else if c = '+' then (parseNatL rest).map (fun n => (n : Int))
    else (parseNatL (c :: rest)).map (fun n => (n : Int))

/-- The ASCII digit character for `n < 10`. -/
def digitChar10 (n : Nat) : Char := Char.ofNat (48 + n)

/-- Fuel-driven base-10 rendering of a natural number (most significant
digit first); `fuel = n + 1` always suffices. -/
def natDigitsAux : Nat → Nat → List Char
  | 0, _ => []
  | fuel + 1, n =>
    if n < 10 then [digitChar10 n]
    else natDigitsAux fuel (n / 10) ++ [digitChar10 (n % 10)]

/-- Decimal digits of a natural number, modelling Python `str(n)`. -/
def natDigits (n : Nat) : List Char := natDigitsAux (n + 1) n

/-- Model of Python `str(i)` / f-string rendering of an int. -/
def intStr (i : Int) : String :=
  match i with
  | .ofNat n => ⟨natDigits n⟩
  | .negSucc n => ⟨'-' :: natDigits (n + 1)⟩

/-- `normalize_dimension` from `src/app.py`: if the argument is truthy,
split on `x`; with exactly two parts, parse both as Python ints and return
`"<min>x<max>"`; otherwise `None` (modelled as `none`). -/
def normalize_dimension : Option String → Option String
  | none => none
  | some dimension =>
    if dimension = "" then none
    else
      match splitOnChar 'x' dimension.data with
      | [p1, p2] =>
        match pyIntL p1, pyIntL p2 with
        | some width, some height =>
          some (intStr (min width height) ++ "x" ++ intStr (max width height))
        | _, _ => none
      | _ => none

/-- Does a character list match the Python regex `^\d+x\d+$` under
`re.match` (which also accepts a single trailing newline before `$`)? -/
def reMatchDim (cs : List Char) : Bool :=
  match cs.span Char.isDigit with
  | (a, 'x' :: r2) =>
    match r2.span Char.isDigit with
    | (b, r3) => !a.isEmpty && !b.isEmpty && (r3.isEmpty || r3 == ['\n'])
  | _ => false

/-- `validate_dimension` from `src/app.py`: truthiness of
`dimension and re.match(r'^\d+x\d+$', dimension)`. -/
def validate_dimension : Option String → Bool
  | none => false
  | some d => d ≠ "" && reMatchDim d.data

/-- One catalog row (`products_df` row): columns `Product_Name`,
`Product_Dimension`, `Product_Type`, `Product_Price`. -/
structure Row where
  Product_Name : String
  Product_Dimension : String
  Product_Type : String
  Product_Price : Int
deriving DecidableEq, Repr

/-- The distinct outcomes of `fetch_product_info`, one constructor per
`return` in the source, carrying exactly the data interpolated into the
returned message string.  `indexError` models the uncaught `IndexError`
raised by `normalized_product_name.split()[k]` on too few tokens. -/
inductive Outcome where
  | invalidDimension
  | priced (name dim : String) (price : Int)
  | ambiguousDimension (requested : String) (available : List String)
  | ambiguousName (name : String) (available : List String)
  | noDimensions
  | typeFallback (name typ : String) (price : Int)
  | notFound
  | indexError
deriving DecidableEq, Repr

/-- The dimension-supplied branch of `fetch_product_info`
(`src/app.py` lines 75-90): validate the normalized dimension, filter by
name containment and normalized-dimension equality, return the first row,
else the set of dimensions available for the name.  The Python `set` of
dimensions is modelled as the deduplicated list in catalog order. -/
def fetch_with_dims (products_df : List Row) (npn dims : String) : Outcome :=
  let normalized_dimensions := normalize_dimension (some dims)
  if validate_dimension normalized_dimensions = false then
    Outcome.invalidDimension
  else
    match products_df.filter (fun r =>
        strContainsCI r.Product_Name npn &&
        (normalize_dimension (some r.Product_Dimension) == normalized_dimensions)) with
    | row :: _ => Outcome.priced row.Product_Name row.Product_Dimension row.Product_Price
    | [] =>
      Outcome.ambiguousDimension dims
        (((products_df.filter (fun r => strContainsCI r.Product_Name npn)).map
          (fun r => r.Product_Dimension)).dedup)

/-- The no-dimension branch of `fetch_product_info` (`src/app.py` lines
91-115): filter by name containment; on a hit, branch on the number of
distinct dimensions; on a miss, fall back to matching the first token
against `Product_Type` and the second against `Product_Name`.
`pn` is the raw `product_name` argument (interpolated into the
ambiguous-name message), `npn` the stripped one used for matching. -/
def fetch_no_dims (products_df : List Row) (pn npn : String) : Outcome :=
  match products_df.filter (fun r => strContainsCI r.Product_Name npn) with
  | row :: rest =>
    let dimensions_found := (((row :: rest)).map (fun r => r.Product_Dimension)).dedup
    if dimensions_found.length = 1 then
      Outcome.priced row.Product_Name row.Product_Dimension row.Product_Price
    else if 1 < dimensions_found.length then
      Outcome.ambiguousName pn dimensions_found
    else
      Outcome.noDimensions
  | [] =>
    match pyTokens npn.data with
    | [] => Outcome.indexError
    | t0 :: ts =>
      match products_df.filter (fun r => strContainsCI r.Product_Type ⟨t0⟩) with
      | [] => Outcome.notFound
      | _ :: _ =>
        match ts with
        | [] => Outcome.indexError
        | t1 :: _ =>
          match (products_df.filter (fun r => strContainsCI r.Product_Type ⟨t0⟩)).filter
              (fun r => strContainsCI r.Product_Name ⟨t1⟩) with
          | row :: _ => Outcome.typeFallback row.Product_Name row.Product_Type row.Product_Price
          | [] => Outcome.notFound

/-- `fetch_product_info` from `src/app.py` (lines 71-115): strip the name,
dispatch on truthiness of name and dimension, and return the outcome of
the corresponding branch; a falsy (absent or empty) name yields the final
`"Proizvod nije pronađen."` return, modelled as `notFound`. -/
def fetch_product_info (products_df : List Row)
    (product_name dimensions : Option String) : Outcome :=
  match product_name with
  | none => Outcome.notFound
  | some pn =>
    if pn = "" then Outcome.notFound
    else
      let npn := pyStripS pn
      if npn = "" then Outcome.notFound
      else
        match dimensions with
        | some dims =>
          if dims = "" then fetch_no_dims products_df pn npn
          else fetch_with_dims products_df npn dims
        | none => fetch_no_dims products_df pn npn

/-- The `GET /webhook` handler from `src/app.py` (lines 148-152): echo
`hub.challenge` with status 200 when `hub.mode == "subscribe"` and
`hub.verify_token` equals the configured secret, else the fixed 403 body. -/
def webhook_get (VERIFY_TOKEN mode token challenge : Option String) :
    Option String × Nat :=
  if mode == some "subscribe" && token == VERIFY_TOKEN then (challenge, 200)
  else (some "Verification token mismatch", 403)

/-- Two successive resolutions of the same query against the same catalog
snapshot, together with the catalog value after both calls: the shallow
embedding of re-running `fetch_product_info`, used to state that
resolution is deterministic and leaves the catalog unchanged. -/
def resolve_twice (products_df : List Row) (product_name dimensions : Option String) :
    Outcome × Outcome × List Row :=
  (fetch_product_info products_df product_name dimensions,
   fetch_product_info products_df product_name dimensions,
   products_df)

/-- The two-row catalog from §8 of the spec. -/
def dfSpec : List Row :=
  [{ Product_Name := "Madrac Infinity", Product_Dimension := "90x200",
     Product_Type := "madrac", Product_Price := 100 },
   { Product_Name := "Madrac Infinity", Product_Dimension := "160x200",
     Product_Type := "madrac", Product_Price := 150 }]

/-- A catalog where two rows tie on every filter but differ in price,
with the cheaper row second: exercises the first-row tie-break. -/
def dfTie : List Row :=
  [{ Product_Name := "Madrac Mondy", Product_Dimension := "90x200",
     Product_Type := "madrac", Product_Price := 100 },
   { Product_Name := "Madrac Mondy", Product_Dimension := "90x200",
     Product_Type := "madrac", Product_Price := 50 }]

/-- A catalog for the type-fallback path: no `Product_Name` contains the
query, both rows' `Product_Type` contains the first token and both names
contain the second token; the cheaper row is second. -/
def dfFallback : List Row :=
  [{ Product_Name := "Mondy Special Deluxe", Product_Dimension := "90x200",
     Product_Type := "madrac", Product_Price := 80 },
   { Product_Name := "Another Special", Product_Dimension := "90x200",
     Product_Type := "madrac", Product_Price := 30 }]

/-- A one-row catalog whose type column (but not name column) matches the
single-token query `"madrac"`: drives the code into `split()[1]`. -/
def dfType : List Row :=
  [{ Product_Name := "Sofa X", Product_Dimension := "60x90",
     Product_Type := "madrac", Product_Price := 100 }]


/-- Every character produced by the digit renderer is `digitChar10 m` for
some `m < 10`. -/
lemma natDigitsAux_chars (fuel : Nat) :
    ∀ n, ∀ c ∈ natDigitsAux fuel n, ∃ m, m < 10 ∧ c = digitChar10 m := by
  induction fuel with
  | zero => intro n c hc; simp [natDigitsAux] at hc
  | succ fuel ih =>
    intro n c hc
    simp only [natDigitsAux] at hc
    by_cases h10 : n < 10
    · rw [if_pos h10] at hc
      simp at hc
      exact ⟨n, h10, hc⟩
    · rw [if_neg h10] at hc
      rcases List.mem_append.mp hc with h | h
      · exact ih (n / 10) c h
      · simp at h
        exact ⟨n % 10, Nat.mod_lt _ (by omega), h⟩

/-- Elementary facts about a decimal digit character. -/
lemma digitChar10_spec (m : Nat) (h : m < 10) :
    (digitChar10 m).isDigit = true ∧ (digitChar10 m).toNat = 48 + m ∧
    (digitChar10 m).isWhitespace = false ∧ digitChar10 m ≠ 'x' ∧
    digitChar10 m ≠ '-' ∧ digitChar10 m ≠ '+' := by
  interval_cases m <;> exact ⟨by decide, by decide, by decide, by decide, by decide, by decide⟩

/-- With positive fuel the digit renderer emits at least one character. -/
lemma natDigitsAux_ne_nil (fuel n : Nat) : natDigitsAux (fuel + 1) n ≠ [] := by
  simp only [natDigitsAux]
  by_cases h10 : n < 10
  · rw [if_pos h10]; simp
  · rw [if_neg h10]; simp

/-- With sufficient fuel, folding the digit-accumulation step over the
rendered digits recovers the number. -/
lemma natDigitsAux_foldl (fuel : Nat) :
    ∀ n, n < 10 ^ fuel → (natDigitsAux fuel n).foldl digStep 0 = n := by
  induction fuel with
  | zero =>
    intro n hn
    interval_cases n
    rfl
  | succ fuel ih =>
    intro n hn
    simp only [natDigitsAux]
    by_cases h10 : n < 10
    · rw [if_pos h10]
      obtain ⟨_, htn, _, _, _, _⟩ := digitChar10_spec n h10
      simp [digStep, htn]
    · rw [if_neg h10]
      rw [List.foldl_append]
      have hpow : (10 : Nat) ^ (fuel + 1) = 10 * 10 ^ fuel := by ring
      have hdiv : n / 10 < 10 ^ fuel := by
        apply Nat.div_lt_of_lt_mul
        rw [← hpow]
        exact hn
      rw [ih (n / 10) hdiv]
      obtain ⟨_, htn, _, _, _, _⟩ := digitChar10_spec (n % 10) (Nat.mod_lt _ (by omega))
      simp [digStep, htn]
      omega

/-- On an all-digit tail the parser is the digit-accumulation fold. -/
lemma parseDigsAux_all (cs : List Char) :
    ∀ acc, (∀ c ∈ cs, c.isDigit = true) → parseDigsAux acc cs = some (cs.foldl digStep acc) := by
  induction cs with
  | nil => intro acc _; rfl
  | cons c rest ih =>
    intro acc h
    have hc : c.isDigit = true := h c (by simp)
    unfold parseDigsAux
    rw [if_pos hc]
    rw [ih (digStep acc c) (fun x hx => h x (by simp [hx]))]
    rfl

/-- Parsing the rendered decimal digits of `n` yields `n`. -/
lemma parseNatL_natDigits (n : Nat) : parseNatL (natDigits n) = some n := by
  have hlt : n < 10 ^ (n + 1) :=
    lt_of_lt_of_le (Nat.lt_pow_self (by norm_num) n)
      (Nat.pow_le_pow_right (by norm_num) (Nat.le_succ n))
  cases hd : natDigits n with
  | nil => exact absurd hd (natDigitsAux_ne_nil n n)
  | cons c rest =>
    have hcmem : c ∈ natDigits n := by rw [hd]; simp
    obtain ⟨m, hm, hcm⟩ := natDigitsAux_chars (n + 1) n c hcmem
    obtain ⟨hdig, htn, _, _, _, _⟩ := digitChar10_spec m hm
    have hcdig : c.isDigit = true := by rw [hcm]; exact hdig
    have hrest : ∀ x ∈ rest, x.isDigit = true := by
      intro x hx
      have hxmem : x ∈ natDigits n := by rw [hd]; simp [hx]
      obtain ⟨m2, hm2, hxm⟩ := natDigitsAux_chars (n + 1) n x hxmem
      rw [hxm]
      exact (digitChar10_spec m2 hm2).1
    simp only [parseNatL, hcdig, if_pos]
    rw [parseDigsAux_all rest (c.toNat - 48) hrest]
    have hfold : (natDigits n).foldl digStep 0 = n := natDigitsAux_foldl (n + 1) n hlt
    rw [hd] at hfold
    simp only [List.foldl_cons] at hfold
    have hstep : digStep 0 c = c.toNat - 48 := by simp [digStep]
    rw [hstep] at hfold
    rw [hfold]

/-- Dropping a satisfied-by-nothing prefix is the identity. -/
lemma dropWhile_none (p : Char → Bool) (l : List Char) (h : ∀ c ∈ l, p c = false) :
    l.dropWhile p = l := by
  cases l with
  | nil => rfl
  | cons c cs => simp [List.dropWhile_cons, h c (by simp)]

/-- Stripping a string with no surrounding whitespace is the identity. -/
lemma pyStrip_id (l : List Char) (h : ∀ c ∈ l, c.isWhitespace = false) : pyStrip l = l := by
  unfold pyStrip
  rw [dropWhile_none _ l h,
    dropWhile_none _ l.reverse (fun c hc => h c (List.mem_reverse.mp hc)),
    List.reverse_reverse]

/-- Every character of a rendered int is either the sign `'-'` or a
decimal digit character. -/
lemma intStr_chars (i : Int) :
    ∀ c ∈ (intStr i).data, c = '-' ∨ ∃ m, m < 10 ∧ c = digitChar10 m := by
  cases i with
  | ofNat n =>
    intro c hc
    exact Or.inr (natDigitsAux_chars (n + 1) n c hc)
  | negSucc n =>
    intro c hc
    rcases List.mem_cons.mp hc with hc | hc
    · exact Or.inl hc
    · exact Or.inr (natDigitsAux_chars (n + 2) (n + 1) c hc)

/-- No character of a rendered int is whitespace. -/
lemma intStr_not_ws (i : Int) : ∀ c ∈ (intStr i).data, c.isWhitespace = false := by
  intro c hc
  rcases intStr_chars i c hc with h | ⟨m, hm, h⟩
  · rw [h]; decide
  · rw [h]; exact (digitChar10_spec m hm).2.2.1

/-- The separator `'x'` never occurs in a rendered int. -/
lemma intStr_no_x (i : Int) : 'x' ∉ (intStr i).data := by
  intro hc
  rcases intStr_chars i 'x' hc with h | ⟨m, hm, h⟩
  · exact absurd h (by decide)
  · exact absurd h.symm (digitChar10_spec m hm).2.2.2.1

/-- Round trip: Python `int(str(i))` recovers `i`. -/
lemma pyIntL_intStr (i : Int) : pyIntL (intStr i).data = some i := by
  cases i with
  | ofNat n =>
    have hdata : (intStr (Int.ofNat n)).data = natDigits n := rfl
    rw [hdata]
    unfold pyIntL
    rw [pyStrip_id (natDigits n) (fun c hc => intStr_not_ws (Int.ofNat n) c hc)]
    cases hd : natDigits n with
    | nil => exact absurd hd (natDigitsAux_ne_nil n n)
    | cons c rest =>
      have hcmem : c ∈ natDigits n := by rw [hd]; simp
      obtain ⟨m, hm, hcm⟩ := natDigitsAux_chars (n + 1) n c hcmem
      have hcm' : c ≠ '-' := by rw [hcm]; exact (digitChar10_spec m hm).2.2.2.2.1
      have hcp : c ≠ '+' := by rw [hcm]; exact (digitChar10_spec m hm).2.2.2.2.2
      simp only [hcm', hcp, if_false, if_neg]
      rw [← hd, parseNatL_natDigits n]
      rfl
  | negSucc n =>
    have hdata : (intStr (Int.negSucc n)).data = '-' :: natDigits (n + 1) := rfl
    rw [hdata]
    unfold pyIntL
    rw [pyStrip_id ('-' :: natDigits (n + 1))
      (fun c hc => intStr_not_ws (Int.negSucc n) c hc)]
    simp [parseNatL_natDigits, Int.negSucc_eq]

/-- Splitting on a character absent from the list leaves one piece. -/
lemma splitOnChar_not_mem (c : Char) (l : List Char) (h : c ∉ l) :
    splitOnChar c l = [l] := by
  induction l with
  | nil => rfl
  | cons a as ih =>
    have ha : ¬(a = c) := fun he => h (he ▸ List.mem_cons_self a as)
    have h2 : c ∉ as := fun hm => h (List.mem_cons_of_mem a hm)
    simp [splitOnChar, ha, ih h2]

/-- Splitting at the first separator occurrence peels off the prefix. -/
lemma splitOnChar_append (c : Char) (l1 l2 : List Char) (h1 : c ∉ l1) :
    splitOnChar c (l1 ++ c :: l2) = l1 :: splitOnChar c l2 := by
  induction l1 with
  | nil => simp [splitOnChar]
  | cons a as ih =>
    have ha : ¬(a = c) := fun he => h1 (he ▸ List.mem_cons_self a as)
    have h2 : c ∉ as := fun hm => h1 (List.mem_cons_of_mem a hm)
    simp [splitOnChar, ha, ih h2]

/-- A list assembled from two separator-free parts splits in exactly two. -/
lemma splitOnChar_two (c : Char) (l1 l2 : List Char) (h1 : c ∉ l1) (h2 : c ∉ l2) :
    splitOnChar c (l1 ++ c :: l2) = [l1, l2] := by
  rw [splitOnChar_append c l1 l2 h1, splitOnChar_not_mem c l2 h2]

/-- Deduplicating a list does not change the induced finite set. -/
lemma dedup_toFinset_eq (l : List String) : l.dedup.toFinset = l.toFinset := by
  ext a
  simp [List.mem_dedup]

/-- For a truthy, already-stripped name and a truthy dimension,
`fetch_product_info` runs its dimension-supplied branch. -/
lemma fetch_eq_with_dims (products_df : List Row) (pn dims : String)
    (hpn : pn ≠ "") (hstrip : pyStripS pn = pn) (hdims : dims ≠ "") :
    fetch_product_info products_df (some pn) (some dims)
      = fetch_with_dims products_df pn dims := by
  simp [fetch_product_info, hstrip, hpn, hdims]

/-- For a truthy, already-stripped name and no dimension,
`fetch_product_info` runs its no-dimension branch. -/
lemma fetch_eq_no_dims (products_df : List Row) (pn : String)
    (hpn : pn ≠ "") (hstrip : pyStripS pn = pn) :
    fetch_product_info products_df (some pn) none
      = fetch_no_dims products_df pn pn := by
  simp [fetch_product_info, hstrip, hpn]

/-- Dimension-supplied branch, hit case: the first row passing both the
name-containment and normalized-dimension filters is priced. -/
lemma fetch_with_dims_priced (products_df : List Row) (npn dims : String)
    (row : Row) (rest : List Row)
    (hvalid : validate_dimension (normalize_dimension (some dims)) = true)
    (hfilter : products_df.filter (fun r =>
        strContainsCI r.Product_Name npn &&
        (normalize_dimension (some r.Product_Dimension) == normalize_dimension (some dims)))
      = row :: rest) :
    fetch_with_dims products_df npn dims
      = Outcome.priced row.Product_Name row.Product_Dimension row.Product_Price := by
  simp only [fetch_with_dims]
  rw [hvalid, hfilter]
  simp

/-- Dimension-supplied branch, miss case: with no row passing both
filters, the outcome lists the dimensions of all name-matching rows. -/
lemma fetch_with_dims_ambiguous (products_df : List Row) (npn dims : String)
    (hvalid : validate_dimension (normalize_dimension (some dims)) = true)
    (hfilter : products_df.filter (fun r =>
        strContainsCI r.Product_Name npn &&
        (normalize_dimension (some r.Product_Dimension) == normalize_dimension (some dims)))
      = []) :
    fetch_with_dims products_df npn dims
      = Outcome.ambiguousDimension dims
          (((products_df.filter (fun r => strContainsCI r.Product_Name npn)).map
            (fun r => r.Product_Dimension)).dedup) := by
  simp only [fetch_with_dims]
  rw [hvalid, hfilter]
  simp

/-- No-dimension branch, unique-dimension case: the first name-matching
row is priced. -/
lemma fetch_no_dims_priced (products_df : List Row) (pn npn : String)
    (row : Row) (rest : List Row)
    (hfilter : products_df.filter (fun r => strContainsCI r.Product_Name npn) = row :: rest)
    (hone : (((row :: rest).map (fun r => r.Product_Dimension)).dedup).length = 1) :
    fetch_no_dims products_df pn npn
      = Outcome.priced row.Product_Name row.Product_Dimension row.Product_Price := by
  simp only [fetch_no_dims]
  rw [hfilter]
  simp only [List.map_cons] at hone
  simp [hone]

/-- No-dimension branch, several-dimensions case: the outcome lists the
distinct dimensions of the name-matching rows. -/
lemma fetch_no_dims_ambiguous (products_df : List Row) (pn npn : String)
    (row : Row) (rest : List Row)
    (hfilter : products_df.filter (fun r => strContainsCI r.Product_Name npn) = row :: rest)
    (hmany : 1 < (((row :: rest).map (fun r => r.Product_Dimension)).dedup).length) :
    fetch_no_dims products_df pn npn
      = Outcome.ambiguousName pn (((row :: rest).map (fun r => r.Product_Dimension)).dedup) := by
  have hne : (((row :: rest).map (fun r => r.Product_Dimension)).dedup).length ≠ 1 := by omega
  simp only [fetch_no_dims]
  rw [hfilter]
  simp only [List.map_cons] at hne hmany
  simp [hne, hmany]

/-- No-dimension branch, type-fallback hit: the first row of the
type-then-name filtered intersection is returned. -/
lemma fetch_no_dims_fallback (products_df : List Row) (pn npn : String)
    (t0 t1 : List Char) (ts : List (List Char)) (row : Row) (rest : List Row)
    (hname : products_df.filter (fun r => strContainsCI r.Product_Name npn) = [])
    (htok : pyTokens npn.data = t0 :: t1 :: ts)
    (hinter : (products_df.filter (fun r => strContainsCI r.Product_Type ⟨t0⟩)).filter
        (fun r => strContainsCI r.Product_Name ⟨t1⟩) = row :: rest) :
    fetch_no_dims products_df pn npn
      = Outcome.typeFallback row.Product_Name row.Product_Type row.Product_Price := by
  simp only [fetch_no_dims, hname, htok]
  cases hm : products_df.filter (fun r => strContainsCI r.Product_Type ⟨t0⟩) with
  | nil =>
    rw [hm] at hinter
    simp at hinter
  | cons a l =>
    rw [hm] at hinter
    simp [hinter]

/-- No-dimension branch, single-token fallback: with the name absent from
the name column, a single query token, and a type-column hit, the source
evaluates `split()[1]` and raises `IndexError`. -/
lemma fetch_no_dims_indexError (products_df : List Row) (pn npn : String)
    (t0 : List Char)
    (hname : products_df.filter (fun r => strContainsCI r.Product_Name npn) = [])
    (htok : pyTokens npn.data = [t0])
    (htype : products_df.filter (fun r => strContainsCI r.Product_Type ⟨t0⟩) ≠ []) :
    fetch_no_dims products_df pn npn = Outcome.indexError := by
  simp only [fetch_no_dims, hname, htok]
  cases hm : products_df.filter (fun r => strContainsCI r.Product_Type ⟨t0⟩) with
  | nil => exact absurd hm htype
  | cons a l => rfl

/-- C1: for every catalog and every resolve call with a name and a valid
supplied dimension, if some row's name contains the (stripped, truthy)
query name case-insensitively and its dimension normalizes equal to the
normalized supplied dimension, the first such row is priced; if no row
satisfies both but some row's name contains the query name, the result is
an ambiguous-dimension clarification whose listed set is exactly the set
of `Product_Dimension` values of all name-matching rows, the requested
dimension being ignored. -/
theorem claim_C1 (products_df : List Row) (pn dims : String)
    (hpn : pn ≠ "") (hstrip : pyStripS pn = pn)
    (hvalid : validate_dimension (normalize_dimension (some dims)) = true) :
    (∀ row rest,
      products_df.filter (fun r =>
          strContainsCI r.Product_Name pn &&
          (normalize_dimension (some r.Product_Dimension) == normalize_dimension (some dims)))
        = row :: rest →
      fetch_product_info products_df (some pn) (some dims)
        = Outcome.priced row.Product_Name row.Product_Dimension row.Product_Price)
    ∧ (products_df.filter (fun r =>
          strContainsCI r.Product_Name pn &&
          (normalize_dimension (some r.Product_Dimension) == normalize_dimension (some dims)))
        = [] →
      (∃ r ∈ products_df, strContainsCI r.Product_Name pn) →
      ∃ ds, fetch_product_info products_df (some pn) (some dims)
          = Outcome.ambiguousDimension dims ds
        ∧ ds.toFinset
          = ((products_df.filter (fun r => strContainsCI r.Product_Name pn)).map
              (fun r => r.Product_Dimension)).toFinset) := by
  have hdims : dims ≠ "" := by
    intro h
    rw [h] at hvalid
    simp [normalize_dimension, validate_dimension] at hvalid
  constructor
  · intro row rest hfilter
    rw [fetch_eq_with_dims products_df pn dims hpn hstrip hdims]
    exact fetch_with_dims_priced products_df pn dims row rest hvalid hfilter
  · intro hfilter _
    refine ⟨((products_df.filter (fun r => strContainsCI r.Product_Name pn)).map
        (fun r => r.Product_Dimension)).dedup, ?_, ?_⟩
    · rw [fetch_eq_with_dims products_df pn dims hpn hstrip hdims]
      exact fetch_with_dims_ambiguous products_df pn dims hvalid hfilter
    · exact dedup_toFinset_eq _

/-- C1 witness: on the spec's two-row catalog, `"200x90"` prices the first
(90x200) row, and the unavailable `"70x70"` yields the ambiguous-dimension
clarification listing exactly the two standard dimensions. -/
theorem claim_C1_witness :
    fetch_product_info dfSpec (some "madrac infinity") (some "200x90")
      = Outcome.priced "Madrac Infinity" "90x200" 100
    ∧ ∃ ds, fetch_product_info dfSpec (some "madrac infinity") (some "70x70")
        = Outcome.ambiguousDimension "70x70" ds
      ∧ ds.toFinset = (["90x200", "160x200"] : List String).toFinset := by
  constructor
  · exact (claim_C1 dfSpec "madrac infinity" "200x90" (by decide) (by decide) (by decide)).1
      { Product_Name := "Madrac Infinity", Product_Dimension := "90x200",
        Product_Type := "madrac", Product_Price := 100 } [] (by decide)
  · obtain ⟨ds, h1, h2⟩ :=
      (claim_C1 dfSpec "madrac infinity" "70x70" (by decide) (by decide) (by decide)).2
        (by decide)
        ⟨{ Product_Name := "Madrac Infinity", Product_Dimension := "90x200",
           Product_Type := "madrac", Product_Price := 100 }, by decide, by decide⟩
    exact ⟨ds, h1, h2.trans (by decide)⟩

/-- C2: for every catalog and every resolve call with a name and no
dimension, if the name-matching rows are non-empty and have exactly one
distinct `Product_Dimension` value the first such row is priced, and if
they have more than one distinct value the result is an ambiguous-name
clarification listing exactly those distinct dimension values. -/
theorem claim_C2 (products_df : List Row) (pn : String)
    (hpn : pn ≠ "") (hstrip : pyStripS pn = pn) :
    ∀ row rest,
      products_df.filter (fun r => strContainsCI r.Product_Name pn) = row :: rest →
      (((row :: rest).map (fun r => r.Product_Dimension)).toFinset.card = 1 →
        fetch_product_info products_df (some pn) none
          = Outcome.priced row.Product_Name row.Product_Dimension row.Product_Price)
      ∧ (1 < ((row :: rest).map (fun r => r.Product_Dimension)).toFinset.card →
        ∃ ds, fetch_product_info products_df (some pn) none
            = Outcome.ambiguousName pn ds
          ∧ ds.toFinset = ((row :: rest).map (fun r => r.Product_Dimension)).toFinset) := by
  intro row rest hfilter
  constructor
  · intro hone
    rw [List.card_toFinset] at hone
    rw [fetch_eq_no_dims products_df pn hpn hstrip]
    exact fetch_no_dims_priced products_df pn pn row rest hfilter hone
  · intro hmany
    rw [List.card_toFinset] at hmany
    refine ⟨((row :: rest).map (fun r => r.Product_Dimension)).dedup, ?_, ?_⟩
    · rw [fetch_eq_no_dims products_df pn hpn hstrip]
      exact fetch_no_dims_ambiguous products_df pn pn row rest hfilter hmany
    · exact dedup_toFinset_eq _

/-- C2 witness: on the spec's two-row catalog, the bare name query yields
the ambiguous-name clarification listing exactly the two dimensions, and
on a one-distinct-dimension catalog the first row is priced. -/
theorem claim_C2_witness :
    (∃ ds, fetch_product_info dfSpec (some "madrac infinity") none
        = Outcome.ambiguousName "madrac infinity" ds
      ∧ ds.toFinset = (["90x200", "160x200"] : List String).toFinset)
    ∧ fetch_product_info dfTie (some "madrac mondy") none
        = Outcome.priced "Madrac Mondy" "90x200" 100 := by
  constructor
  · obtain ⟨ds, h1, h2⟩ :=
      ((claim_C2 dfSpec "madrac infinity" (by decide) (by decide)
          { Product_Name := "Madrac Infinity", Product_Dimension := "90x200",
            Product_Type := "madrac", Product_Price := 100 }
          [{ Product_Name := "Madrac Infinity", Product_Dimension := "160x200",
             Product_Type := "madrac", Product_Price := 150 }] (by decide)).2) (by decide)
    exact ⟨ds, h1, h2.trans (by decide)⟩
  · exact ((claim_C2 dfTie "madrac mondy" (by decide) (by decide)
      { Product_Name := "Madrac Mondy", Product_Dimension := "90x200",
        Product_Type := "madrac", Product_Price := 100 }
      [{ Product_Name := "Madrac Mondy", Product_Dimension := "90x200",
         Product_Type := "madrac", Product_Price := 50 }] (by decide)).1) (by decide)

/-- C4 counterexample: on a catalog whose type column (but not name
column) matches the one-token query `"madrac"`, the type-fallback branch
is entered and `fetch_product_info` reaches `split()[1]`, raising
`IndexError` (the `indexError` outcome) instead of returning `notFound`:
the error branch is reachable, refuting the claim. -/
theorem claim_C4_counterexample :
    fetch_product_info dfType (some "madrac") none ≠ Outcome.notFound
    ∧ fetch_product_info dfType (some "madrac") none = Outcome.indexError
    ∧ pyTokens (pyStripS "madrac").data = ["madrac".data]
    ∧ dfType.filter (fun r => strContainsCI r.Product_Name "madrac") = []
    ∧ dfType.filter (fun r => strContainsCI r.Product_Type "madrac") ≠ [] := by
  decide

/-- C4 amended: for every resolve call with a one-token (stripped, truthy)
name and no dimension, where no row's name contains the name but some
row's type contains its only token, the source evaluates
`normalized_product_name.split()[1]` and raises `IndexError` — modelled as
the `indexError` outcome — rather than returning `notFound`; the error
branch is reachable on such inputs. -/
theorem claim_C4 (products_df : List Row) (pn : String) (t0 : List Char)
    (hpn : pn ≠ "") (hstrip : pyStripS pn = pn)
    (htok : pyTokens pn.data = [t0])
    (hname : products_df.filter (fun r => strContainsCI r.Product_Name pn) = [])
    (htype : products_df.filter (fun r => strContainsCI r.Product_Type ⟨t0⟩) ≠ []) :
    fetch_product_info products_df (some pn) none = Outcome.indexError := by
  rw [fetch_eq_no_dims products_df pn hpn hstrip]
  exact fetch_no_dims_indexError products_df pn pn t0 hname htok htype

/-- C4 witness: the amended claim at the concrete one-row catalog. -/
theorem claim_C4_witness :
    fetch_product_info dfType (some "madrac") none = Outcome.indexError :=
  claim_C4 dfType "madrac" "madrac".data (by decide) (by decide) (by decide)
    (by decide) (by decide)

/-- C6: whenever several catalog rows satisfy the active filter — the
name-and-dimension filter, the name-only filter (with a single distinct
dimension), or the type-fallback intersection — the row answered is the
first matching row in the catalog's stored order, with no secondary
ranking. -/
theorem claim_C6 (products_df : List Row) (pn dims : String)
    (hpn : pn ≠ "") (hstrip : pyStripS pn = pn) :
    (∀ row rest,
      validate_dimension (normalize_dimension (some dims)) = true →
      products_df.filter (fun r =>
          strContainsCI r.Product_Name pn &&
          (normalize_dimension (some r.Product_Dimension) == normalize_dimension (some dims)))
        = row :: rest →
      fetch_product_info products_df (some pn) (some dims)
        = Outcome.priced row.Product_Name row.Product_Dimension row.Product_Price)
    ∧ (∀ row rest,
      products_df.filter (fun r => strContainsCI r.Product_Name pn) = row :: rest →
      (((row :: rest).map (fun r => r.Product_Dimension)).dedup).length = 1 →
      fetch_product_info products_df (some pn) none
        = Outcome.priced row.Product_Name row.Product_Dimension row.Product_Price)
    ∧ (∀ (t0 t1 : List Char) (ts : List (List Char)) row rest,
      products_df.filter (fun r => strContainsCI r.Product_Name pn) = [] →
      pyTokens pn.data = t0 :: t1 :: ts →
      (products_df.filter (fun r => strContainsCI r.Product_Type ⟨t0⟩)).filter
          (fun r => strContainsCI r.Product_Name ⟨t1⟩) = row :: rest →
      fetch_product_info products_df (some pn) none
        = Outcome.typeFallback row.Product_Name row.Product_Type row.Product_Price) := by
  refine ⟨?_, ?_, ?_⟩
  · intro row rest hvalid hfilter
    have hdims : dims ≠ "" := by
      intro h
      rw [h] at hvalid
      simp [normalize_dimension, validate_dimension] at hvalid
    rw [fetch_eq_with_dims products_df pn dims hpn hstrip hdims]
    exact fetch_with_dims_priced products_df pn dims row rest hvalid hfilter
  · intro row rest hfilter hone
    rw [fetch_eq_no_dims products_df pn hpn hstrip]
    exact fetch_no_dims_priced products_df pn pn row rest hfilter hone
  · intro t0 t1 ts row rest hname htok hinter
    rw [fetch_eq_no_dims products_df pn hpn hstrip]
    exact fetch_no_dims_fallback products_df pn pn t0 t1 ts row rest hname htok hinter

/-- C6 witness: two rows tie on each filter with the cheaper row second;
in all three branches the first stored row (not the cheaper one) wins. -/
theorem claim_C6_witness :
    fetch_product_info dfTie (some "madrac mondy") (some "200x90")
      = Outcome.priced "Madrac Mondy" "90x200" 100
    ∧ fetch_product_info dfTie (some "madrac mondy") none
      = Outcome.priced "Madrac Mondy" "90x200" 100
    ∧ fetch_product_info dfFallback (some "madrac special") none
      = Outcome.typeFallback "Mondy Special Deluxe" "madrac" 80 := by
  refine ⟨?_, ?_, ?_⟩
  · exact (claim_C6 dfTie "madrac mondy" "200x90" (by decide) (by decide)).1
      { Product_Name := "Madrac Mondy", Product_Dimension := "90x200",
        Product_Type := "madrac", Product_Price := 100 }
      [{ Product_Name := "Madrac Mondy", Product_Dimension := "90x200",
         Product_Type := "madrac", Product_Price := 50 }] (by decide) (by decide)
  · exact (claim_C6 dfTie "madrac mondy" "200x90" (by decide) (by decide)).2.1
      { Product_Name := "Madrac Mondy", Product_Dimension := "90x200",
        Product_Type := "madrac", Product_Price := 100 }
      [{ Product_Name := "Madrac Mondy", Product_Dimension := "90x200",
         Product_Type := "madrac", Product_Price := 50 }] (by decide) (by decide)
  · exact (claim_C6 dfFallback "madrac special" "200x90" (by decide) (by decide)).2.2
      "madrac".data "special".data []
      { Product_Name := "Mondy Special Deluxe", Product_Dimension := "90x200",
        Product_Type := "madrac", Product_Price := 80 }
      [{ Product_Name := "Another Special", Product_Dimension := "90x200",
         Product_Type := "madrac", Product_Price := 30 }]
      (by decide) (by decide) (by decide)

/-- C8: resolution is deterministic and side-effect free — for a fixed
catalog snapshot and fixed `(name, dimension)` inputs, two runs of
`fetch_product_info` yield identical outcomes and the catalog value is
unchanged by the calls; in this pure shallow embedding both facts hold by
construction. -/
theorem claim_C8 (products_df : List Row) (product_name dimensions : Option String) :
    (resolve_twice products_df product_name dimensions).1
      = (resolve_twice products_df product_name dimensions).2.1
    ∧ (resolve_twice products_df product_name dimensions).2.2 = products_df :=
  ⟨rfl, rfl⟩

/-- C9: with a configured secret, a `GET /webhook` request echoes the
`hub.challenge` parameter (status 200) exactly when `hub.mode` is
`"subscribe"` and `hub.verify_token` equals the secret; in every other
case — in particular a wrong token regardless of mode — the response is
the fixed body with HTTP 403. -/
theorem claim_C9 (secret : String) (mode token challenge : Option String) :
    (webhook_get (some secret) mode token challenge = (challenge, 200)
      ↔ (mode = some "subscribe" ∧ token = some secret))
    ∧ (¬(mode = some "subscribe" ∧ token = some secret) →
        webhook_get (some secret) mode token challenge
          = (some "Verification token mismatch", 403)) := by
  have hcond : ((mode == some "subscribe") && (token == some secret)) = true
      ↔ (mode = some "subscribe" ∧ token = some secret) := by
    simp
  constructor
  · constructor
    · intro h
      by_cases hb : ((mode == some "subscribe") && (token == some secret)) = true
      · exact hcond.mp hb
      · exfalso
        simp only [webhook_get, hb, if_false] at h
        have h2 : (403 : Nat) = 200 := congrArg Prod.snd h
        exact absurd h2 (by decide)
    · intro h
      simp [webhook_get, h.1, h.2]
  · intro hn
    have hb : ((mode == some "subscribe") && (token == some secret)) = false := by
      rw [Bool.eq_false_iff]
      intro hb
      exact hn (hcond.mp hb)
    simp [webhook_get, hb]

/-- C9 witness: a correct token echoes the challenge; a wrong token with
the correct mode still yields the fixed 403 response. -/
theorem claim_C9_witness :
    webhook_get (some "SECRET") (some "subscribe") (some "SECRET") (some "12345")
      = (some "12345", 200)
    ∧ webhook_get (some "SECRET") (some "subscribe") (some "wrong") (some "12345")
      = (some "Verification token mismatch", 403) :=
  ⟨(claim_C9 "SECRET" (some "subscribe") (some "SECRET") (some "12345")).1.mpr
      (by decide),
   (claim_C9 "SECRET" (some "subscribe") (some "wrong") (some "12345")).2
      (by decide)⟩

/-- Characterization of a successful normalization: `normalize_dimension`
returns `some nd` exactly when the input is truthy, splits on `x` into
exactly two parts, both parts parse as Python ints, and `nd` renders the
ordered pair. -/
lemma normalize_eq_some (d nd : String) :
    normalize_dimension (some d) = some nd ↔
    d ≠ "" ∧ ∃ p1 p2 A B, splitOnChar 'x' d.data = [p1, p2] ∧ pyIntL p1 = some A ∧
      pyIntL p2 = some B ∧ nd = intStr (min A B) ++ "x" ++ intStr (max A B) := by
  constructor
  · intro h
    by_cases hd : d = ""
    · simp only [normalize_dimension] at h
      rw [if_pos hd] at h
      exact absurd h (by simp)
    refine ⟨hd, ?_⟩
    simp only [normalize_dimension] at h
    rw [if_neg hd] at h
    rcases hsp : splitOnChar 'x' d.data with _ | ⟨p1, _ | ⟨p2, _ | ⟨p3, pt⟩⟩⟩
    · rw [hsp] at h; simp at h
    · rw [hsp] at h; simp at h
    · rw [hsp] at h
      have h' : (match pyIntL p1, pyIntL p2 with
          | some width, some height =>
            some (intStr (min width height) ++ "x" ++ intStr (max width height))
          | _, _ => none) = some nd := h
      cases h1 : pyIntL p1 with
      | none =>
        rw [h1] at h'
        cases h2 : pyIntL p2 <;> rw [h2] at h' <;> simp at h'
      | some A =>
        rw [h1] at h'
        cases h2 : pyIntL p2 with
        | none => rw [h2] at h'; simp at h'
        | some B =>
          rw [h2] at h'
          simp only [Option.some.injEq] at h'
          exact ⟨p1, p2, A, B, rfl, h1, h2, h'.symm⟩
    · rw [hsp] at h; simp at h
  · rintro ⟨hd, p1, p2, A, B, hsp, h1, h2, rfl⟩
    simp only [normalize_dimension]
    rw [if_neg hd, hsp]
    simp [h1, h2]

/-- The concatenation of two parseable parts around `x` is nonempty and
splits back; normalization orders and re-renders the two values. -/
lemma normalize_concat (a b : String) (A B : Int)
    (ha : pyIntL a.data = some A) (hb : pyIntL b.data = some B)
    (hsplit : splitOnChar 'x' (a ++ "x" ++ b).data = [a.data, b.data]) :
    normalize_dimension (some (a ++ "x" ++ b))
      = some (intStr (min A B) ++ "x" ++ intStr (max A B)) := by
  apply (normalize_eq_some _ _).mpr
  refine ⟨?_, a.data, b.data, A, B, hsplit, ha, hb, rfl⟩
  intro he
  have h2 := congrArg String.data he
  rw [String.data_append, String.data_append] at h2
  have hnil : ("" : String).data = [] := rfl
  rw [hnil] at h2
  simp at h2

/-- A list all of whose elements satisfy the predicate is its own
`takeWhile`. -/
lemma takeWhile_all (p : Char → Bool) (l : List Char) (h : ∀ c ∈ l, p c = true) :
    l.takeWhile p = l := by
  induction l with
  | nil => rfl
  | cons c cs ih =>
    simp [List.takeWhile_cons, h c (by simp), ih (fun x hx => h x (by simp [hx]))]

/-- A list all of whose elements satisfy the predicate has empty
`dropWhile`. -/
lemma dropWhile_all (p : Char → Bool) (l : List Char) (h : ∀ c ∈ l, p c = true) :
    l.dropWhile p = [] := by
  induction l with
  | nil => rfl
  | cons c cs ih =>
    simp [List.dropWhile_cons, h c (by simp), ih (fun x hx => h x (by simp [hx]))]

/-- `takeWhile` runs through an all-satisfying prefix. -/
lemma takeWhile_append_all (p : Char → Bool) (xs zs : List Char)
    (h : ∀ c ∈ xs, p c = true) : (xs ++ zs).takeWhile p = xs ++ zs.takeWhile p := by
  induction xs with
  | nil => rfl
  | cons c cs ih =>
    simp [List.takeWhile_cons, h c (by simp), ih (fun x hx => h x (by simp [hx]))]

/-- `dropWhile` skips an all-satisfying prefix. -/
lemma dropWhile_append_all (p : Char → Bool) (xs zs : List Char)
    (h : ∀ c ∈ xs, p c = true) : (xs ++ zs).dropWhile p = zs.dropWhile p := by
  induction xs with
  | nil => rfl
  | cons c cs ih =>
    simp [List.dropWhile_cons, h c (by simp), ih (fun x hx => h x (by simp [hx]))]

/-- All rendered decimal digits are digit characters. -/
lemma natDigits_digits (n : Nat) : ∀ c ∈ natDigits n, c.isDigit = true := by
  intro c hc
  obtain ⟨m, hm, hcm⟩ := natDigitsAux_chars (n + 1) n c hc
  rw [hcm]
  exact (digitChar10_spec m hm).1

/-- Two nonempty all-digit blocks around a literal `x` match the
`^\d+x\d+$` pattern. -/
lemma reMatchDim_digits (l1 l2 : List Char)
    (h1 : ∀ c ∈ l1, c.isDigit = true) (h2 : ∀ c ∈ l2, c.isDigit = true)
    (hn1 : l1 ≠ []) (hn2 : l2 ≠ []) :
    reMatchDim (l1 ++ 'x' :: l2) = true := by
  unfold reMatchDim
  rw [List.span_eq_take_drop, takeWhile_append_all _ l1 _ h1, dropWhile_append_all _ l1 _ h1]
  have hx : ('x').isDigit = false := by decide
  rw [List.takeWhile_cons, List.dropWhile_cons]
  rw [hx]
  simp only [Bool.false_eq_true, if_false, List.append_nil]
  rw [List.span_eq_take_drop, takeWhile_all _ l2 h2, dropWhile_all _ l2 h2]
  simp [hn1, hn2]

/-- C3: for every input `"<a>x<b>"` whose two parts are exactly the
integer-parseable `a` and `b`, `normalize_dimension` returns
`"<min(a,b)>x<max(a,b)>"`; it is invariant under swapping the two parts,
and in particular maps both `"60x90"` and `"90x60"` to `"60x90"`. -/
theorem claim_C3 :
    (∀ (a b : String) (A B : Int),
      pyIntL a.data = some A → pyIntL b.data = some B →
      splitOnChar 'x' (a ++ "x" ++ b).data = [a.data, b.data] →
      normalize_dimension (some (a ++ "x" ++ b))
        = some (intStr (min A B) ++ "x" ++ intStr (max A B)))
    ∧ (∀ (a b : String) (A B : Int),
      pyIntL a.data = some A → pyIntL b.data = some B →
      splitOnChar 'x' (a ++ "x" ++ b).data = [a.data, b.data] →
      splitOnChar 'x' (b ++ "x" ++ a).data = [b.data, a.data] →
      normalize_dimension (some (a ++ "x" ++ b))
        = normalize_dimension (some (b ++ "x" ++ a)))
    ∧ normalize_dimension (some "60x90") = some "60x90"
    ∧ normalize_dimension (some "90x60") = some "60x90" := by
  refine ⟨?_, ?_, by decide, by decide⟩
  · intro a b A B ha hb hsplit
    exact normalize_concat a b A B ha hb hsplit
  · intro a b A B ha hb hsplit1 hsplit2
    rw [normalize_concat a b A B ha hb hsplit1,
      normalize_concat b a B A hb ha hsplit2, min_comm, max_comm]

/-- C3 witness: the general min-max statement at `a = "90"`, `b = "60"`. -/
theorem claim_C3_witness :
    normalize_dimension (some ("90" ++ "x" ++ "60"))
      = some (intStr (min (90 : Int) 60) ++ "x" ++ intStr (max (90 : Int) 60)) :=
  claim_C3.1 "90" "60" 90 60 (by decide) (by decide) (by decide)

/-- C5 counterexample: `normalize_dimension` does not fail on `"-5x3"`
(Python `int` accepts a sign), yet the normalized output `"-5x3"` does not
match `^\d+x\d+$`, so `validate_dimension` rejects it — refuting the claim
that a non-failed normalization always validates. -/
theorem claim_C5_counterexample :
    normalize_dimension (some "-5x3") = some "-5x3"
    ∧ validate_dimension (normalize_dimension (some "-5x3")) = false := by
  decide

/-- C5 amended: for every input whose two `x`-separated parts parse as
nonnegative Python ints — in particular every all-digit input —
`validate_dimension (normalize_dimension d)` holds, so validate is a
redundant second guard there; with a negative part normalization can
succeed while validation rejects the result, so validate also guards
against signed dimensions, not only failed normalization. -/
theorem claim_C5 (d : String) (p1 p2 : List Char) (A B : Int)
    (hsplit : splitOnChar 'x' d.data = [p1, p2])
    (h1 : pyIntL p1 = some A) (h2 : pyIntL p2 = some B)
    (hA : 0 ≤ A) (hB : 0 ≤ B) :
    validate_dimension (normalize_dimension (some d)) = true := by
  have hd : d ≠ "" := by
    intro h
    rw [h] at hsplit
    have hempty : splitOnChar 'x' ("" : String).data = [[]] := rfl
    rw [hempty] at hsplit
    simp at hsplit
  have hnorm : normalize_dimension (some d)
      = some (intStr (min A B) ++ "x" ++ intStr (max A B)) :=
    (normalize_eq_some _ _).mpr ⟨hd, p1, p2, A, B, hsplit, h1, h2, rfl⟩
  rw [hnorm]
  have hlo : 0 ≤ min A B := le_min hA hB
  have hhi : 0 ≤ max A B := le_trans hA (le_max_left A B)
  obtain ⟨n1, hn1⟩ : ∃ k : Nat, min A B = Int.ofNat k :=
    ⟨(min A B).toNat, (Int.toNat_of_nonneg hlo).symm⟩
  obtain ⟨n2, hn2⟩ : ∃ k : Nat, max A B = Int.ofNat k :=
    ⟨(max A B).toNat, (Int.toNat_of_nonneg hhi).symm⟩
  rw [hn1, hn2]
  have hdata : (intStr (Int.ofNat n1) ++ "x" ++ intStr (Int.ofNat n2)).data
      = natDigits n1 ++ 'x' :: natDigits n2 := by
    rw [String.data_append, String.data_append]
    simp
    rfl
  have hne : (intStr (Int.ofNat n1) ++ "x" ++ intStr (Int.ofNat n2)) ≠ "" := by
    intro he
    have h2' := congrArg String.data he
    rw [hdata] at h2'
    have hnil : ("" : String).data = [] := rfl
    rw [hnil] at h2'
    exact absurd (congrArg List.length h2') (by simp)
  simp only [validate_dimension, hdata]
  rw [reMatchDim_digits (natDigits n1) (natDigits n2) (natDigits_digits n1)
    (natDigits_digits n2) (natDigitsAux_ne_nil n1 n1) (natDigitsAux_ne_nil n2 n2)]
  simp
  exact hne

/-- C5 witness: the amended claim at the all-digit input `"90x60"`. -/
theorem claim_C5_witness :
    validate_dimension (normalize_dimension (some "90x60")) = true :=
  claim_C5 "90x60" "90".data "60".data 90 60 (by decide) (by decide) (by decide)
    (by decide) (by decide)

/-- C7: `normalize_dimension` fails exactly on the stated bad shapes — the
absent input, a part that is not integer-parseable (`"abcx90"`), more than
two `x`-separated parts (`"60x90x30"`), no `x` separator (`"6090"`), and
in general any input that does not split into exactly two parseable parts;
conversely every failure is of that form. -/
theorem claim_C7 :
    normalize_dimension none = none
    ∧ normalize_dimension (some "abcx90") = none
    ∧ normalize_dimension (some "60x90x30") = none
    ∧ normalize_dimension (some "6090") = none
    ∧ (∀ d : String, (splitOnChar 'x' d.data).length ≠ 2 →
        normalize_dimension (some d) = none)
    ∧ (∀ (d : String) (p1 p2 : List Char), splitOnChar 'x' d.data = [p1, p2] →
        pyIntL p1 = none ∨ pyIntL p2 = none → normalize_dimension (some d) = none)
    ∧ (∀ d : String, normalize_dimension (some d) = none →
        ¬∃ (p1 p2 : List Char) (A B : Int), splitOnChar 'x' d.data = [p1, p2]
          ∧ pyIntL p1 = some A ∧ pyIntL p2 = some B) := by
  refine ⟨rfl, by decide, by decide, by decide, ?_, ?_, ?_⟩
  · intro d hlen
    cases hn : normalize_dimension (some d) with
    | none => rfl
    | some nd =>
      obtain ⟨-, p1, p2, -, -, hsp, -, -, -⟩ := (normalize_eq_some d nd).mp hn
      rw [hsp] at hlen
      simp at hlen
  · intro d p1 p2 hsp hnone
    cases hn : normalize_dimension (some d) with
    | none => rfl
    | some nd =>
      obtain ⟨-, q1, q2, A, B, hsp2, h1, h2, -⟩ := (normalize_eq_some d nd).mp hn
      rw [hsp] at hsp2
      simp only [List.cons.injEq, and_true] at hsp2
      obtain ⟨hq1, hq2⟩ := hsp2
      rcases hnone with h | h
      · rw [hq1] at h
        rw [h1] at h
        exact absurd h (by simp)
      · rw [hq2] at h
        rw [h2] at h
        exact absurd h (by simp)
  · intro d hn hex
    obtain ⟨p1, p2, A, B, hsp, h1, h2⟩ := hex
    have hd : d ≠ "" := by
      intro h
      rw [h] at hsp
      have hempty : splitOnChar 'x' ("" : String).data = [[]] := rfl
      rw [hempty] at hsp
      simp at hsp
    have := (normalize_eq_some d (intStr (min A B) ++ "x" ++ intStr (max A B))).mpr
      ⟨hd, p1, p2, A, B, hsp, h1, h2, rfl⟩
    rw [hn] at this
    exact absurd this (by simp)

/-- C7 witness: the unparseable-part clause applied at `"abcx90"`. -/
theorem claim_C7_witness :
    normalize_dimension (some "abcx90") = none :=
  claim_C7.2.2.2.2.2.1 "abcx90" "abc".data "90".data (by decide) (Or.inl (by decide))

/-- C10: `normalize_dimension` is idempotent on its successes — whenever
it returns `some nd`, normalizing `nd` again returns `nd` unchanged, so
the query handler's passing of an already-normalized dimension into the
resolver, which normalizes it a second time, leaves the value used for
lookup unchanged. -/
theorem claim_C10 (d nd : String)
    (h : normalize_dimension (some d) = some nd) :
    normalize_dimension (some nd) = some nd := by
  obtain ⟨hd, p1, p2, A, B, hsp, h1, h2, hnd⟩ := (normalize_eq_some d nd).mp h
  subst hnd
  have hle : min A B ≤ max A B := min_le_max
  apply (normalize_eq_some _ _).mpr
  refine ⟨?_, (intStr (min A B)).data, (intStr (max A B)).data, min A B, max A B,
    ?_, pyIntL_intStr (min A B), pyIntL_intStr (max A B), ?_⟩
  · intro he
    have h2' := congrArg String.data he
    rw [String.data_append, String.data_append] at h2'
    have hnil : ("" : String).data = [] := rfl
    rw [hnil] at h2'
    exact absurd (congrArg List.length h2') (by simp)
  · have hdata : (intStr (min A B) ++ "x" ++ intStr (max A B)).data
        = (intStr (min A B)).data ++ 'x' :: (intStr (max A B)).data := by
      rw [String.data_append, String.data_append]
      simp
    rw [hdata]
    exact splitOnChar_two 'x' _ _ (intStr_no_x (min A B)) (intStr_no_x (max A B))
  · rw [min_eq_left hle, max_eq_right hle]

/-- C10 witness: normalizing the normalized form of `"90x60"` is fixed. -/
theorem claim_C10_witness :
    normalize_dimension (some "60x90") = some "60x90" :=
  claim_C10 "90x60" "60x90" (by decide)
